import Mathlib

/-!
Verification development for the flowgen event-routing pipeline.

The definitions below are a shallow embedding of the Rust sources:
the Arrow record-batch model used by `flowgen_core` (message.rs),
the millisecond-to-microsecond precision transform of the deltalake
adapter (event.rs), the `current_task_id` stamp filters of the file /
salesforce / http stages, the flow supervisor's task-join logic
(flow.rs), the broadcast bus, and the NATS KV cache initialization.

Machine integers are modelled as `Nat` / `Int` with explicit range
checks where overflow matters.  A Rust panic (failed `unwrap`,
arithmetic overflow with overflow checks on, out-of-bounds index) is
modelled as `Option.none`; a returned `Err` is modelled through
`Except.error`.
-/

namespace Flowgen

/-! ## Machine-integer helpers -/

/-- Smallest value of a Rust `i64`. -/
def i64Min : Int := -(2 ^ 63)

/-- Largest value of a Rust `i64`. -/
def i64Max : Int := 2 ^ 63 - 1

/-- Rust `usize` subtraction with overflow checks: `none` models the
underflow panic raised when `b > a`. -/
def usizeSub (a b : Nat) : Option Nat :=
  if b ≤ a then some (a - b) else none

/-! ## Arrow data model

A shallow embedding of the parts of Arrow used by the sources: fields
with a data type, typed columns, and record batches built through
`RecordBatch::try_new`.  Only the data types the claims touch are
represented (timestamps of the four units, utf8 strings, 64-bit
integers). -/

/-- Arrow `TimeUnit`. -/
inductive TimeUnit where
  | second
  | millisecond
  | microsecond
  | nanosecond
deriving DecidableEq

/-- The subset of Arrow `DataType` exercised by the sources. -/
inductive DataType where
  | timestamp (unit : TimeUnit) (tz : Option String)
  | utf8
  | int64
deriving DecidableEq

/-- Arrow `Field`: name, data type, nullability flag. -/
structure Field where
  name : String
  dataType : DataType
  nullable : Bool
deriving DecidableEq

/-- A typed Arrow array.  Cell values are `Option`s: `none` is a null
entry.  A `timestampCol` carries the unit and timezone of its data
type, as the corresponding Rust array does. -/
inductive ArrowColumn where
  | timestampCol (unit : TimeUnit) (tz : Option String) (vals : List (Option Int))
  | utf8Col (vals : List (Option String))
  | int64Col (vals : List (Option Int))
deriving DecidableEq

/-- Data type of an array, as reported by `Array::data_type`. -/
def ArrowColumn.dataType : ArrowColumn → DataType
  | .timestampCol u tz _ => .timestamp u tz
  | .utf8Col _ => .utf8
  | .int64Col _ => .int64

/-- Number of entries of an array (`Array::len`). -/
def ArrowColumn.length : ArrowColumn → Nat
  | .timestampCol _ _ v => v.length
  | .utf8Col v => v.length
  | .int64Col v => v.length

/-- Number of null entries of an array (`Array::null_count`). -/
def ArrowColumn.nullCount : ArrowColumn → Nat
  | .timestampCol _ _ v => (v.filter Option.isNone).length
  | .utf8Col v => (v.filter Option.isNone).length
  | .int64Col v => (v.filter Option.isNone).length

/-- Arrow errors surfaced by the modelled operations. -/
inductive ArrowErrorKind where
  | invalidArgument (msg : String)
deriving DecidableEq

/-- Arrow `RecordBatch`: a schema (list of fields) plus one column per
field. -/
structure RecordBatch where
  fields : List Field
  columns : List ArrowColumn
deriving DecidableEq

/-- Per-column validation performed by `RecordBatch::try_new`: each
column's data type must equal its field's data type, a non-nullable
field admits no null entries, and every column has `rowCount` rows. -/
def batchChecks (fields : List Field) (columns : List ArrowColumn) (rowCount : Nat) : Bool :=
  (columns.zip fields).all fun p =>
    decide (p.1.dataType = p.2.dataType) &&
      (p.2.nullable || decide (p.1.nullCount = 0)) &&
      decide (p.1.length = rowCount)

/-- Arrow `RecordBatch::try_new`: fails when the column count differs
from the field count, when there is no column at all (no row count can
be inferred), or when a per-column check fails. -/
def RecordBatch.tryNew (fields : List Field) (columns : List ArrowColumn) :
    Except ArrowErrorKind RecordBatch :=
  if fields.length = columns.length then
    match columns.head? with
    | none =>
        .error (.invalidArgument "must either specify a row count or at least one column")
    | some c0 =>
        if batchChecks fields columns c0.length then
          .ok ⟨fields, columns⟩
        else
          .error (.invalidArgument "column types must match schema types")
  else
    .error (.invalidArgument "number of columns must match number of fields")

/-- Row count of a batch (`RecordBatch::num_rows`): the length of its
first column. -/
def RecordBatch.numRows (b : RecordBatch) : Nat :=
  (b.columns.head?.map ArrowColumn.length).getD 0

/-- A batch is well formed when it would pass `RecordBatch::try_new`
unchanged. -/
def RecordBatch.wf (b : RecordBatch) : Prop :=
  b.fields.length = b.columns.length ∧
    b.columns ≠ [] ∧
    batchChecks b.fields b.columns b.numRows = true

instance (b : RecordBatch) : Decidable b.wf := by
  unfold RecordBatch.wf; infer_instance

/-- Arrow `RecordBatch::column_by_name`: the column whose field has the
given name, if any. -/
def RecordBatch.column_by_name (b : RecordBatch) (nm : String) : Option ArrowColumn :=
  ((b.fields.zip b.columns).find? fun p => p.1.name = nm).map Prod.snd

/-! ## Event model

Modelled from the spec: the `flowgen_core::event::Event` struct itself
is not among the provided sources (only its users are); per spec §3 an
Event carries a columnar table `data`, a routing `subject`, an open
string-to-scalar `extensions` mapping, and an optional stage stamp
`current_task_id`. -/

/-- Canonical routable unit of data flowing through the bus. -/
structure Event where
  data : RecordBatch
  subject : String
  extensions : List (String × String)
  current_task_id : Option Nat
deriving DecidableEq

/-! ## Stamp filter (ordering / barrier discipline)

The file publisher (publisher.rs line 33), the salesforce pubsub
publisher (publisher.rs line 78) and the http processor (processor.rs
line 87) all evaluate the same predicate on every received event:

  `event.current_task_id == Some(self.current_task_id - 1)`

where `self.current_task_id : usize`.  The subtraction is evaluated
before the comparison, so with `current_task_id = 0` it underflows and
panics for every event. -/

/-- Evaluation of the stamp-filter predicate: `none` models the usize
underflow panic, `some b` the comparison outcome. -/
def stampFilterEval (current_task_id : Nat) (stamp : Option Nat) : Option Bool :=
  (usizeSub current_task_id 1).map fun pred => decide (stamp = some pred)

/-- Side effects of the file publisher stage. -/
inductive FileEffect where
  | writeCsv (path : String) (data : RecordBatch)
deriving DecidableEq

/-- One iteration of the receive loop of `flowgen_file`
`Publisher::publish` (publisher.rs lines 30-56): when the stamp filter
matches, the event's table is written as a CSV file at the configured
path (the CSV encoding itself is external library code; the effect
records its inputs).  A filtered-out event produces no effect and is
not retained.  `none` models a panic. -/
def filePublisherHandleEvent (current_task_id : Nat) (path : String) (e : Event) :
    Option (List FileEffect) :=
  match stampFilterEval current_task_id e.current_task_id with
  | none => none
  | some true => some [.writeCsv path e.data]
  | some false => some []

/-- The whole file-publisher receive loop over a finite stream of
events: effects are concatenated in order; the loop keeps no buffer
and never requeues an event. -/
def filePublisherRun (current_task_id : Nat) (path : String) (events : List Event) :
    Option (List FileEffect) :=
  (events.mapM (filePublisherHandleEvent current_task_id path)).map List.flatten

/-- Side effects of the salesforce pubsub publisher stage. -/
inductive SalesforceEffect where
  | publishProducerEvent (topic : String) (schemaId : String)
      (inputs : Option (List (String × String))) (data : RecordBatch)
deriving DecidableEq

/-- One iteration of the receive loop of the salesforce pubsub
`Publisher::publish` (pubsub/publisher.rs lines 77-118): when the
stamp filter matches, a producer event is published to the configured
topic (template rendering and the gRPC publish are external; the
effect records its inputs).  `none` models a panic. -/
def salesforcePublisherHandleEvent (current_task_id : Nat) (topic schemaId : String)
    (inputs : Option (List (String × String))) (e : Event) :
    Option (List SalesforceEffect) :=
  match stampFilterEval current_task_id e.current_task_id with
  | none => none
  | some true => some [.publishProducerEvent topic schemaId inputs e.data]
  | some false => some []

/-- `StringArray::from(column.to_data())`: succeeds only on a utf8
column; anything else panics. -/
def ArrowColumn.asStringVals : ArrowColumn → Option (List (Option String))
  | .utf8Col v => some v
  | _ => none

/-- The input-extraction loop of the http processor (processor.rs
lines 90-103): for each configured `(key, column-name)` pair the named
column is looked up (`unwrap` panics when absent), converted to a
string array (panics when not utf8), and the last non-null entry is
inserted under `key`. -/
def httpExtractInputs (b : RecordBatch) : List (String × String) →
    Option (List (String × String))
  | [] => some []
  | (key, colName) :: rest =>
    match b.column_by_name colName with
    | none => none
    | some col =>
      match col.asStringVals with
      | none => none
      | some vals =>
        (httpExtractInputs b rest).map fun tail =>
          (match (vals.filterMap id).getLast? with
            | some v => [(key, v)]
            | none => []) ++ tail

/-- Side effects of the http processor stage. -/
inductive HttpEffect where
  | renderEndpoint (tpl : String) (data : List (String × String))
deriving DecidableEq

/-- One iteration of the receive loop built by the http `Builder::build`
(processor.rs lines 86-135): when the stamp filter matches, the
configured inputs are extracted from the event's table and the
endpoint template is rendered and printed (handlebars rendering is
external; the effect records its inputs).  `none` models a panic. -/
def httpProcessorHandleEvent (current_task_id : Nat) (endpoint : String)
    (inputs : Option (List (String × String))) (e : Event) :
    Option (List HttpEffect) :=
  match stampFilterEval current_task_id e.current_task_id with
  | none => none
  | some true =>
    match inputs with
    | none => some [.renderEndpoint endpoint []]
    | some ins =>
      match httpExtractInputs e.data ins with
      | none => none
      | some data => some [.renderEndpoint endpoint data]
  | some false => some []

/-- The `flowgen_file::publisher::PublisherBuilder` (publisher.rs lines
64-104): `current_task_id` is a plain `usize` field with the Rust
default value `0`; `build` requires `config` and `receiver` to be set
but never validates `current_task_id`. -/
structure FilePublisherBuilder where
  config : Option String := none
  receiverSet : Bool := false
  current_task_id : Nat := 0

/-- The built file publisher state relevant to the claims. -/
structure FilePublisherState where
  path : String
  current_task_id : Nat
deriving DecidableEq

/-- Missing-attribute errors of the builders. -/
inductive BuilderError where
  | missingRequiredAttribute (which : String)
deriving DecidableEq

/-- `PublisherBuilder::build`: fails when `config` or `receiver` was
not provided; `current_task_id` is taken as-is (default `0`). -/
def FilePublisherBuilder.build (b : FilePublisherBuilder) :
    Except BuilderError FilePublisherState :=
  match b.config with
  | none => .error (.missingRequiredAttribute "config")
  | some path =>
    if b.receiverSet then .ok ⟨path, b.current_task_id⟩
    else .error (.missingRequiredAttribute "receiver")

/-! ## Precision normalization (deltalake adapter)

Embedding of `EventExt::adjust_data_precision` for
`flowgen_core::stream::event::Event` (crates/deltalake/src/event.rs
lines 20-65).  The transform walks the schema; every field of type
`Timestamp(Millisecond, tz)` is replaced by a microsecond field (same
name, same nullability, same timezone), its column downcast to a
millisecond array (panic on failure) and each non-null cell multiplied
by 1000 with `i64` arithmetic (overflow panics); all other fields and
columns pass through unchanged.  The new batch is rebuilt with
`RecordBatch::try_new`; note that `TimestampMicrosecondArray::from`
yields an array with no timezone, while the new field keeps the
original timezone. -/

/-- Rust `i64` multiplication by 1000 with overflow checks: `none`
models the overflow panic. -/
def i64Mul1000 (v : Int) : Option Int :=
  if i64Min ≤ v * 1000 ∧ v * 1000 ≤ i64Max then some (v * 1000) else none

/-- `val.map(|ms| ms * 1000)` on one cell: a null stays null, a value
is multiplied (overflow panics). -/
def convertMsCell : Option Int → Option (Option Int)
  | none => some none
  | some v => (i64Mul1000 v).map some

/-- Conversion of an entire millisecond column's values. -/
def convertMsVals (vals : List (Option Int)) : Option (List (Option Int)) :=
  vals.mapM convertMsCell

/-- One field/column step of the loop of `adjust_data_precision`
(event.rs lines 27-58): millisecond-timestamp fields are rewritten to
microsecond precision and their column converted; everything else is
passed through.  `none` models a panic (failed downcast or `i64`
overflow). -/
def adjustFieldColumn (f : Field) (c : ArrowColumn) : Option (Field × ArrowColumn) :=
  match f.dataType with
  | .timestamp .millisecond tz =>
    match c with
    | .timestampCol .millisecond _ vals =>
      (convertMsVals vals).map fun newVals =>
        (⟨f.name, .timestamp .microsecond tz, f.nullable⟩,
          .timestampCol .microsecond none newVals)
    | _ => none
  | _ => some (f, c)

/-- `EventExt::adjust_data_precision` on the event's record batch.
The Rust loop indexes `columns[i]` for every field index `i`, so a
batch with more fields than columns panics; the rebuilt batch goes
through `RecordBatch::try_new`, whose failure is returned as
`Error::Arrow`.  The outer `none` models a panic, `Except.error` the
returned error. -/
def adjust_data_precision (b : RecordBatch) : Option (Except ArrowErrorKind RecordBatch) :=
  if b.fields.length ≤ b.columns.length then
    match (b.fields.zip b.columns).mapM (fun p => adjustFieldColumn p.1 p.2) with
    | none => none
    | some pairs =>
      some (RecordBatch.tryNew (pairs.map Prod.fst) (pairs.map Prod.snd))
  else
    none

/-- Two sequential applications of `adjust_data_precision`, stopping at
the first panic or error, as a caller running the transform twice
would observe. -/
def adjustDataPrecisionTwice (b : RecordBatch) : Option (Except ArrowErrorKind RecordBatch) :=
  match adjust_data_precision b with
  | none => none
  | some (.error e) => some (.error e)
  | some (.ok b2) => adjust_data_precision b2

/-- Spec-side description of the field rewrite, following the spec's
words: only a millisecond-timestamp field's unit changes (to
microsecond); every other field is unchanged. -/
def specFieldToMicro (f : Field) : Field :=
  match f.dataType with
  | .timestamp .millisecond tz => ⟨f.name, .timestamp .microsecond tz, f.nullable⟩
  | _ => f

/-- Spec-side description of the column rewrite, following the spec's
words: the column of a millisecond-timestamp field has every non-null
entry multiplied by 1000 (nulls stay null) and becomes a microsecond
column; every other column is unchanged. -/
def specColumnToMicro (f : Field) (c : ArrowColumn) : ArrowColumn :=
  match f.dataType with
  | .timestamp .millisecond _ =>
    match c with
    | .timestampCol _ _ vals =>
      .timestampCol .microsecond none (vals.map (Option.map fun v => v * 1000))
    | _ => c
  | _ => c

/-! ## Structured-to-tabular conversion (core message model)

Embedding of `impl RecordBatchExt for serde_json::Value`
(crates/core/src/message.rs lines 22-44).  JSON numbers are modelled
as integers (their exact textual rendering is immaterial to the
claims); a `serde_json::Map` is modelled as its association list in
iteration order with distinct keys. -/

/-- A JSON value (`serde_json::Value`). -/
inductive Json where
  | null
  | bool (b : Bool)
  | num (n : Int)
  | str (s : String)
  | arr (items : List Json)
  | obj (entries : List (String × Json))

/-- Minimal string escaping of the compact JSON serializer. -/
def escapeJsonString (s : String) : String :=
  String.mk (s.toList.flatMap fun c =>
    if c = Char.ofNat 34 ∨ c = Char.ofNat 92 then [Char.ofNat 92, c] else [c])

mutual

/-- Compact rendering of a JSON value (`Value::to_string`). -/
def Json.render : Json → String
  | .null => "null"
  | .bool true => "true"
  | .bool false => "false"
  | .num n => toString n
  | .str s => "\"" ++ escapeJsonString s ++ "\""
  | .arr items => "[" ++ Json.renderItems items ++ "]"
  | .obj entries => "\x7b" ++ Json.renderEntries entries ++ "\x7d"

/-- Comma-separated rendering of array items. -/
def Json.renderItems : List Json → String
  | [] => ""
  | [x] => x.render
  | x :: y :: rest => x.render ++ "," ++ Json.renderItems (y :: rest)

/-- Comma-separated rendering of object entries. -/
def Json.renderEntries : List (String × Json) → String
  | [] => ""
  | [(k, v)] => "\"" ++ escapeJsonString k ++ "\":" ++ v.render
  | (k, v) :: e :: rest =>
      "\"" ++ escapeJsonString k ++ "\":" ++ v.render ++ "," ++
        Json.renderEntries (e :: rest)

end

/-- `Value::as_object`: the entries of an object, `none` otherwise. -/
def Json.asObject : Json → Option (List (String × Json))
  | .obj entries => some entries
  | _ => none

/-- `RecordBatchExt::to_recordbatch` (message.rs lines 24-43): the
input is unwrapped as an object (panic when it is not one), each entry
becomes a nullable `Utf8` field whose single-element column holds the
entry's value rendered to a string, and the batch is rebuilt with
`RecordBatch::try_new(..).unwrap()` (panic on failure).  The function
has no error-returning path: `none` models a panic.  Note that for the
empty object `try_new` receives zero columns and fails, so the
`unwrap` panics. -/
def to_recordbatch (v : Json) : Option RecordBatch :=
  match v.asObject with
  | none => none
  | some entries =>
    let fields := entries.map fun kv => Field.mk kv.1 .utf8 true
    let columns := entries.map fun kv => ArrowColumn.utf8Col [some kv.2.render]
    match RecordBatch.tryNew fields columns with
    | .ok b => some b
    | .error _ => none

/-! ## Flow supervisor (flow.rs)

Embedding of the task-supervision tail of `Flow::run`
(flowgen/src/flow.rs lines 80 and 174-197).  Spawned target tasks push
their join handles into `task_list`; line 196 then runs

  `tokio::spawn(async move { task_list.into_iter().collect::<TryJoinAll<_>>().await });`

i.e. the join of the task list is itself offloaded to a *detached*
task whose result is discarded, and `run` returns `Ok(self)` on line
197 without awaiting it. -/

/-- The fatal error type of `flow::Error` (flow.rs lines 19-39),
restricted to the constructors the claims touch. -/
inductive FlowError where
  | natsPublish
  | tokioJoin
  | flowgenFileSubscriber
  | flowgenNatsJetStreamPublisher
deriving DecidableEq

/-- `futures` `TryJoinAll` over already-terminated tasks: the first
error among the results, or unit when all succeeded. -/
def tryJoinAll : List (Except FlowError Unit) → Except FlowError Unit
  | [] => .ok ()
  | .error e :: _ => .error e
  | .ok () :: rest => tryJoinAll rest

/-- The supervision performed by `Flow::run` on `task_list` as a
function of the spawned tasks' eventual results: the `TryJoinAll` is
computed inside a detached spawned task and its outcome is discarded
(flow.rs line 196); `run` itself returns `Ok` (line 197) regardless
of any task's result. -/
def flowRunSuperviseTasks (taskResults : List (Except FlowError Unit)) :
    Except FlowError Unit :=
  let _detachedJoin := tryJoinAll taskResults
  Except.ok ()

/-! ## Broadcast bus

`Flow::run` creates the bus on flow.rs lines 81-82:

  `tokio::sync::broadcast::channel(1000)`

Modelled from the spec: the channel semantics themselves are external
library code (tokio); per spec §4.3 and §9 the bus is a bounded ring
buffer holding the last `capacity` published messages with a
monotonically increasing sequence number, each receiver keeps its own
cursor, send never blocks, and a receiver whose cursor has been
overwritten observes a lagged result (with the number of messages it
missed) and is repositioned at the oldest retained message. -/

/-- Sender/ring state of a broadcast channel: the capacity and the
full publish history (of which only the last `capacity` entries are
retained for delivery). -/
structure BroadcastChannel (α : Type) where
  capacity : Nat
  sent : List α

/-- A receiver's cursor into the publish sequence. -/
structure BroadcastReceiver where
  cursor : Nat
deriving DecidableEq

/-- Outcome of one `recv` call. -/
inductive RecvOutcome (α : Type) where
  | message (x : α)
  | lagged (missed : Nat)
  | pending
deriving DecidableEq

/-- `tokio::sync::broadcast::channel(capacity)`: a fresh channel and a
receiver positioned at the start of the publish sequence. -/
def broadcastChannel (α : Type) (capacity : Nat) : BroadcastChannel α × BroadcastReceiver :=
  (⟨capacity, []⟩, ⟨0⟩)

/-- Publishing on the bus: always succeeds immediately, appending to
the publish sequence; the producer never blocks. -/
def BroadcastChannel.send (ch : BroadcastChannel α) (x : α) : BroadcastChannel α :=
  { ch with sent := ch.sent ++ [x] }

/-- Publishing a whole list of messages in order. -/
def BroadcastChannel.sendAll (ch : BroadcastChannel α) (xs : List α) : BroadcastChannel α :=
  xs.foldl BroadcastChannel.send ch

/-- Index of the oldest message still retained by the ring. -/
def BroadcastChannel.oldest (ch : BroadcastChannel α) : Nat :=
  ch.sent.length - ch.capacity

/-- One `recv` call: a receiver whose cursor was overwritten observes
`lagged` with the number of missed messages and is repositioned at the
oldest retained message; otherwise it takes the message at its cursor,
or would suspend (`pending`) when it has read everything. -/
def BroadcastChannel.recvFrom (ch : BroadcastChannel α) (r : BroadcastReceiver) :
    RecvOutcome α × BroadcastReceiver :=
  if r.cursor < ch.oldest then
    (.lagged (ch.oldest - r.cursor), ⟨ch.oldest⟩)
  else
    match ch.sent.get? r.cursor with
    | some x => (.message x, ⟨r.cursor + 1⟩)
    | none => (.pending, r)

/-- Capacity passed to `tokio::sync::broadcast::channel` by
`Flow::run` (flow.rs line 82). -/
def flowRunBusCapacity : Nat := 1000

/-! ## NATS KV cache (crates/nats/src/cache.rs)

`Cache::init` (cache.rs lines 35-59) connects a NATS client, then
fetches the named KV bucket with `get_key_value` and, when that fails,
creates it with `create_key_value` passing history 10.  Modelled from
the spec: the JetStream server itself is external; it is modelled as a
map from bucket name to its history depth, where fetching succeeds
exactly for existing buckets and creating adds the bucket.  A
connection flag models whether the client connect succeeds. -/

/-- Cache-layer errors (cache.rs lines 4-24), restricted to the
constructors the claims touch. -/
inductive CacheError where
  | natsClientAuth
  | natsKVBucketCreate
deriving DecidableEq

/-- Modelled from the spec: JetStream server state visible to the KV
cache — the existing buckets with their history depth, plus whether a
client connection attempt succeeds. -/
structure JetStreamServer where
  buckets : List (String × Nat)
  connectOk : Bool
deriving DecidableEq

/-- `Context::get_key_value`: a handle to the named bucket when it
exists, failure otherwise. -/
def getKeyValue (st : JetStreamServer) (bucket : String) : Option String :=
  (st.buckets.lookup bucket).map fun _ => bucket

/-- `Context::create_key_value` with `Config { bucket, history, .. }`:
registers the bucket and returns a handle to it. -/
def createKeyValue (st : JetStreamServer) (bucket : String) (history : Nat) :
    JetStreamServer × String :=
  ({ st with buckets := st.buckets ++ [(bucket, history)] }, bucket)

/-- The `flowgen_nats::cache::Cache` state: credentials plus the
optional bucket handle set by `init`. -/
structure Cache where
  credentials_path : String
  store : Option String
deriving DecidableEq

/-- `Cache::init` (cache.rs lines 35-59): connect (error when the
connection fails), then fetch-or-create the bucket — `get_key_value`
on success yields the existing bucket, otherwise `create_key_value` is
called with history 10 — and store the handle. -/
def Cache.init (c : Cache) (st : JetStreamServer) (bucket : String) :
    JetStreamServer × Except CacheError Cache :=
  if st.connectOk then
    match getKeyValue st bucket with
    | some store => (st, .ok { c with store := some store })
    | none =>
      let (st2, store) := createKeyValue st bucket 10
      (st2, .ok { c with store := some store })
  else
    (st, .error .natsClientAuth)

/-! ## Tabular-to-bytes serialization (core message model)

Embedding of `impl TryFrom<Message> for Vec<u8>` (message.rs lines
46-56): an Arrow IPC `StreamWriter` writes the schema, then the batch
data, then the end-of-stream marker into a byte buffer.

Modelled from the spec: the Arrow IPC byte encoding itself is external
library code; per spec §4.1 the stream is a self-describing encoding
of schema followed by data.  It is modelled as a stream of atoms (an
atom stands for the opaque byte encoding of one scalar) produced by a
total, length-prefixed, tag-framed encoder, with the matching reader
(`table_of`) as a consuming decoder. -/

/-- One atom of the modelled byte stream: a tag or count, or the
opaque byte encoding of one scalar value. -/
inductive Atom where
  | tag (n : Nat)
  | strVal (s : String)
  | intVal (i : Int)
deriving DecidableEq

/-- Encoding of a string scalar. -/
def encodeString (s : String) : List Atom := [.strVal s]

/-- Decoder matching `encodeString`. -/
def decodeString : List Atom → Option (String × List Atom)
  | .strVal s :: rest => some (s, rest)
  | _ => none

/-- Encoding of a boolean as one tag atom. -/
def encodeBool (b : Bool) : List Atom := [.tag (if b then 1 else 0)]

/-- Decoder matching `encodeBool`. -/
def decodeBool : List Atom → Option (Bool × List Atom)
  | .tag 0 :: rest => some (false, rest)
  | .tag 1 :: rest => some (true, rest)
  | _ => none

/-- Encoding of an integer scalar. -/
def encodeInt (i : Int) : List Atom := [.intVal i]

/-- Decoder matching `encodeInt`. -/
def decodeInt : List Atom → Option (Int × List Atom)
  | .intVal i :: rest => some (i, rest)
  | _ => none

/-- Tag-prefixed encoding of an optional value. -/
def encodeOption (enc : α → List Atom) : Option α → List Atom
  | none => [.tag 0]
  | some x => .tag 1 :: enc x

/-- Decoder matching `encodeOption`. -/
def decodeOption (dec : List Atom → Option (α × List Atom)) :
    List Atom → Option (Option α × List Atom)
  | .tag 0 :: rest => some (none, rest)
  | .tag 1 :: rest => (dec rest).map fun p => (some p.1, p.2)
  | _ => none

/-- Length-prefixed encoding of a list of values. -/
def encodeList (enc : α → List Atom) (xs : List α) : List Atom :=
  .tag xs.length :: (xs.map enc).flatten

/-- Read exactly `n` values with the element decoder. -/
def decodeCount (dec : List Atom → Option (α × List Atom)) :
    Nat → List Atom → Option (List α × List Atom)
  | 0, l => some ([], l)
  | n + 1, l =>
    match dec l with
    | none => none
    | some (x, l1) => (decodeCount dec n l1).map fun p => (x :: p.1, p.2)

/-- Decoder matching `encodeList`. -/
def decodeList (dec : List Atom → Option (α × List Atom)) :
    List Atom → Option (List α × List Atom)
  | .tag n :: rest => decodeCount dec n rest
  | _ => none

/-- Encoding of a time unit as one tag atom. -/
def encodeTimeUnit : TimeUnit → List Atom
  | .second => [.tag 0]
  | .millisecond => [.tag 1]
  | .microsecond => [.tag 2]
  | .nanosecond => [.tag 3]

/-- Decoder matching `encodeTimeUnit`. -/
def decodeTimeUnit : List Atom → Option (TimeUnit × List Atom)
  | .tag 0 :: rest => some (.second, rest)
  | .tag 1 :: rest => some (.millisecond, rest)
  | .tag 2 :: rest => some (.microsecond, rest)
  | .tag 3 :: rest => some (.nanosecond, rest)
  | _ => none

/-- Tag-prefixed encoding of a data type. -/
def encodeDataType : DataType → List Atom
  | .timestamp u tz => .tag 0 :: (encodeTimeUnit u ++ encodeOption encodeString tz)
  | .utf8 => [.tag 1]
  | .int64 => [.tag 2]

/-- Decoder matching `encodeDataType`. -/
def decodeDataType : List Atom → Option (DataType × List Atom)
  | .tag 0 :: rest =>
    (match decodeTimeUnit rest with
      | none => none
      | some (u, l1) =>
        (decodeOption decodeString l1).map fun p => (.timestamp u p.1, p.2))
  | .tag 1 :: rest => some (.utf8, rest)
  | .tag 2 :: rest => some (.int64, rest)
  | _ => none

/-- Encoding of a schema field. -/
def encodeField (f : Field) : List Atom :=
  encodeString f.name ++ encodeDataType f.dataType ++ encodeBool f.nullable

/-- Decoder matching `encodeField`. -/
def decodeField (l : List Atom) : Option (Field × List Atom) :=
  match decodeString l with
  | none => none
  | some (nm, l1) =>
    match decodeDataType l1 with
    | none => none
    | some (dt, l2) =>
      (decodeBool l2).map fun p => (⟨nm, dt, p.1⟩, p.2)

/-- Tag-prefixed encoding of a column. -/
def encodeColumn : ArrowColumn → List Atom
  | .timestampCol u tz vals =>
    .tag 0 :: (encodeTimeUnit u ++ encodeOption encodeString tz ++
      encodeList (encodeOption encodeInt) vals)
  | .utf8Col vals => .tag 1 :: encodeList (encodeOption encodeString) vals
  | .int64Col vals => .tag 2 :: encodeList (encodeOption encodeInt) vals

/-- Decoder matching `encodeColumn`. -/
def decodeColumn : List Atom → Option (ArrowColumn × List Atom)
  | .tag 0 :: rest =>
    (match decodeTimeUnit rest with
      | none => none
      | some (u, l1) =>
        match decodeOption decodeString l1 with
        | none => none
        | some (tz, l2) =>
          (decodeList (decodeOption decodeInt) l2).map fun p =>
            (.timestampCol u tz p.1, p.2))
  | .tag 1 :: rest =>
    (decodeList (decodeOption decodeString) rest).map fun p => (.utf8Col p.1, p.2)
  | .tag 2 :: rest =>
    (decodeList (decodeOption decodeInt) rest).map fun p => (.int64Col p.1, p.2)
  | _ => none

/-- The `flowgen_core::message::Message` struct (message.rs lines
58-62): a record batch plus a routing subject. -/
structure Message where
  data : RecordBatch
  subject : String
deriving DecidableEq

/-- End-of-stream marker written by `StreamWriter::finish`. -/
def endOfStreamMarker : Atom := .tag 0

/-- `TryFrom<Message> for Vec<u8>` (message.rs lines 48-55): the
stream writer emits the schema, then the single record batch, then the
end-of-stream marker.  The `subject` is not serialized. -/
def bytes_of (m : Message) : List Atom :=
  encodeList encodeField m.data.fields ++
    encodeList encodeColumn m.data.columns ++ [endOfStreamMarker]

/-- The matching stream reader: parses the schema block, the batch
data block, and the end-of-stream marker, yielding the table. -/
def table_of (l : List Atom) : Option RecordBatch :=
  match decodeList decodeField l with
  | none => none
  | some (fields, l1) =>
    match decodeList decodeColumn l1 with
    | none => none
    | some (columns, l2) =>
      match l2 with
      | m :: _ => if m = endOfStreamMarker then some ⟨fields, columns⟩ else none
      | [] => none

/-! ## Shared concrete values used by witnesses -/

/-- A small concrete one-row batch. -/
def sampleBatch : RecordBatch :=
  ⟨[⟨"id", .utf8, true⟩], [.utf8Col [some "1"]]⟩

/-- A concrete event stamped with stage id 0. -/
def sampleEvent : Event :=
  ⟨sampleBatch, "filedrop.in.0", [], some 0⟩

/-! ## Helper lemmas -/

theorem stampFilterEval_pos (n : Nat) (hn : 1 ≤ n) (stamp : Option Nat) :
    stampFilterEval n stamp = some (decide (stamp = some (n - 1))) := by
  simp [stampFilterEval, usizeSub, hn]

theorem stampFilterEval_miss (n : Nat) (hn : 1 ≤ n) (stamp : Option Nat)
    (h : stamp ≠ some (n - 1)) : stampFilterEval n stamp = some false := by
  rw [stampFilterEval_pos n hn]
  simp [h]

theorem filePublisherHandleEvent_skip (n : Nat) (hn : 1 ≤ n) (path : String)
    (e : Event) (h : e.current_task_id ≠ some (n - 1)) :
    filePublisherHandleEvent n path e = some [] := by
  have hf := stampFilterEval_miss n hn e.current_task_id h
  simp [filePublisherHandleEvent, hf]

theorem httpProcessorHandleEvent_skip (n : Nat) (hn : 1 ≤ n) (endpoint : String)
    (inputs : Option (List (String × String))) (e : Event)
    (h : e.current_task_id ≠ some (n - 1)) :
    httpProcessorHandleEvent n endpoint inputs e = some [] := by
  have hf := stampFilterEval_miss n hn e.current_task_id h
  simp [httpProcessorHandleEvent, hf]

theorem mapM_flatten_nil {α β : Type} (f : α → Option (List β)) :
    ∀ l : List α, (∀ x ∈ l, f x = some []) →
      (l.mapM f).map List.flatten = some []
  | [], _ => rfl
  | x :: l, h => by
    have hx : f x = some [] := h x (List.mem_cons_self x l)
    have ih := mapM_flatten_nil f l fun y hy => h y (List.mem_cons_of_mem x hy)
    match hrec : l.mapM f with
    | none => rw [hrec] at ih; simp at ih
    | some bs =>
      rw [hrec] at ih
      have hbs : bs.flatten = [] := by simpa using ih
      rw [List.mapM_cons, hx, hrec]
      show Option.map List.flatten (some ([] :: bs)) = some []
      simp [hbs]

theorem tryNew_eq_ok (F : List Field) (C : List ArrowColumn) (c0 : ArrowColumn)
    (hlen : F.length = C.length) (hhead : C.head? = some c0)
    (hchecks : batchChecks F C c0.length = true) :
    RecordBatch.tryNew F C = .ok ⟨F, C⟩ := by
  rw [RecordBatch.tryNew, if_pos hlen, hhead]
  simp [hchecks]

/-! ## Claim C1 -/

/-- C1: for every Event received by a pipeline stage whose stage id is
`n` (a downstream stage, so `n ≥ 1`), the stage acts on the Event only
when the Event's `current_task_id` equals `n - 1`; an Event stamped
with any other value (or not stamped) produces zero side effects and
is neither buffered nor requeued — the whole receive loop over a
stream of such events produces no effect at all — while an Event
stamped `n - 1` is acted on. -/
theorem stage_stamp_filter_invariant (n : Nat) (hn : 1 ≤ n)
    (path endpoint : String) (inputs : Option (List (String × String)))
    (e : Event) (hmiss : e.current_task_id ≠ some (n - 1))
    (events : List Event) (hall : ∀ e2 ∈ events, e2.current_task_id ≠ some (n - 1))
    (e3 : Event) (hmatch : e3.current_task_id = some (n - 1)) :
    filePublisherHandleEvent n path e = some [] ∧
    httpProcessorHandleEvent n endpoint inputs e = some [] ∧
    filePublisherRun n path events = some [] ∧
    filePublisherHandleEvent n path e3 = some [.writeCsv path e3.data] := by
  refine ⟨filePublisherHandleEvent_skip n hn path e hmiss,
    httpProcessorHandleEvent_skip n hn endpoint inputs e hmiss, ?_, ?_⟩
  · exact mapM_flatten_nil _ events fun e2 h2 =>
      filePublisherHandleEvent_skip n hn path e2 (hall e2 h2)
  · have hf : stampFilterEval n e3.current_task_id = some true := by
      rw [stampFilterEval_pos n hn]
      simp [hmatch]
    simp [filePublisherHandleEvent, hf]

/-- Witness for C1 at stage id 2: an event stamped 0 and an unstamped
event are skipped with zero effects, an event stamped 1 is acted on. -/
theorem stage_stamp_filter_invariant_witness :
    filePublisherHandleEvent 2 "out.csv" sampleEvent = some [] ∧
    httpProcessorHandleEvent 2 "https://x" none sampleEvent = some [] ∧
    filePublisherRun 2 "out.csv" [sampleEvent, { sampleEvent with current_task_id := none }] = some [] ∧
    filePublisherHandleEvent 2 "out.csv" { sampleEvent with current_task_id := some 1 } =
      some [.writeCsv "out.csv" sampleBatch] :=
  stage_stamp_filter_invariant 2 (by decide) "out.csv" "https://x" none
    sampleEvent (by decide)
    [sampleEvent, { sampleEvent with current_task_id := none }]
    (by decide)
    { sampleEvent with current_task_id := some 1 } (by decide)

/-! ## Claim C2 -/

/-- C2 (code bug): `Flow::run` does not surface task errors.  At the
failing input — a single spawned task that terminated with a fatal
`NatsPublish` error — the supervision step of `Flow::run` still
evaluates to `Ok (())`, because flow.rs line 196 offloads the
`TryJoinAll` of `task_list` to a detached spawned task and discards
its result, while the faithful join of the same task list yields the
error the claim requires to be surfaced. -/
theorem flow_run_drops_task_errors :
    flowRunSuperviseTasks [Except.error FlowError.natsPublish] = Except.ok () ∧
    tryJoinAll [Except.error FlowError.natsPublish] = Except.error FlowError.natsPublish :=
  ⟨rfl, rfl⟩

/-! ## Claim C10 -/

/-- C10: every stamp-filtering stage (file publisher, salesforce
pubsub publisher, http processor) computes `current_task_id - 1` on a
`usize` with no zero guard: with the builder-default
`current_task_id = 0` the subtraction underflows and panics (`none`)
on every received event instead of skipping it, and the filter is well
defined exactly under the precondition `current_task_id ≥ 1`; the file
publisher builder indeed builds with `current_task_id = 0` when the
stage id is never set. -/
theorem stamp_filter_zero_underflow (n : Nat) (hn : 1 ≤ n) (stamp : Option Nat)
    (e : Event) (path topic schemaId endpoint : String)
    (inputs : Option (List (String × String))) :
    stampFilterEval 0 stamp = none ∧
    filePublisherHandleEvent 0 path e = none ∧
    salesforcePublisherHandleEvent 0 topic schemaId inputs e = none ∧
    httpProcessorHandleEvent 0 endpoint inputs e = none ∧
    FilePublisherBuilder.build { config := some path, receiverSet := true } =
      .ok ⟨path, 0⟩ ∧
    stampFilterEval n stamp = some (decide (stamp = some (n - 1))) :=
  ⟨rfl, rfl, rfl, rfl, rfl, stampFilterEval_pos n hn stamp⟩

/-- Witness for C10 at a concrete stage id and event. -/
theorem stamp_filter_zero_underflow_witness :
    stampFilterEval 0 (some 3) = none ∧
    filePublisherHandleEvent 0 "out.csv" sampleEvent = none ∧
    salesforcePublisherHandleEvent 0 "/event/T" "schema1" none sampleEvent = none ∧
    httpProcessorHandleEvent 0 "https://x" none sampleEvent = none ∧
    FilePublisherBuilder.build { config := some "out.csv", receiverSet := true } =
      .ok ⟨"out.csv", 0⟩ ∧
    stampFilterEval 1 (some 3) = some (decide ((some 3 : Option Nat) = some (1 - 1))) :=
  stamp_filter_zero_underflow 1 (by decide) (some 3) sampleEvent
    "out.csv" "/event/T" "schema1" "https://x" none

theorem batchChecks_utf8_singletons (l : List (String × Json)) :
    batchChecks (l.map fun kv => ⟨kv.1, .utf8, true⟩)
      (l.map fun kv => .utf8Col [some kv.2.render]) 1 = true := by
  induction l with
  | nil => rfl
  | cons kv l ih =>
    simp only [batchChecks, List.map_cons, List.zip_cons_cons, List.all_cons] at ih ⊢
    simp only [ih]
    simp [ArrowColumn.dataType, ArrowColumn.length]

/-! ## Claim C6 -/

/-- C6 counterexample: at the concrete non-object input `[]` (a JSON
array), `to_recordbatch` panics — `self.as_object().unwrap()` on
message.rs line 25 unwraps `None` — rather than returning an error
value; the function's `Error` type has no schema-error variant and no
reachable error-returning path at all, so the claim that a
`SchemaError`-class error value is returned is false. -/
theorem to_recordbatch_non_object_panics_cex :
    to_recordbatch (Json.arr []) = none := rfl

/-- C6 amended: for every JSON value that is not an object,
`to_recordbatch` panics (models as `none`) instead of returning an
error value. -/
theorem to_recordbatch_non_object_panics (v : Json) (h : v.asObject = none) :
    to_recordbatch v = none := by
  simp [to_recordbatch, h]

/-- Witness for the amended C6 at a concrete string input. -/
theorem to_recordbatch_non_object_panics_witness :
    Json.asObject (.str "a") = none ∧ to_recordbatch (.str "a") = none :=
  ⟨rfl, to_recordbatch_non_object_panics (.str "a") rfl⟩

/-! ## Claim C7 -/

/-- C7 counterexample: at the concrete input of the empty JSON object,
`to_recordbatch` panics instead of returning a one-row table —
`RecordBatch::try_new` receives zero columns, fails because no row
count can be inferred, and the `unwrap` on message.rs line 41 panics —
so the claim does not hold for every JSON object. -/
theorem to_recordbatch_empty_object_panics_cex :
    to_recordbatch (Json.obj []) = none := rfl

/-- C7 amended: for every JSON object with at least one key,
`to_recordbatch` returns a batch with exactly one row whose columns
are exactly the object's top-level keys, each a nullable `Utf8`
column holding the rendered value; the empty object instead panics. -/
theorem to_recordbatch_object_shape (entries : List (String × Json))
    (h : entries ≠ []) :
    ∃ b, to_recordbatch (Json.obj entries) = some b ∧
      b.fields = entries.map (fun kv => ⟨kv.1, .utf8, true⟩) ∧
      b.columns = entries.map (fun kv => .utf8Col [some kv.2.render]) ∧
      b.numRows = 1 ∧
      b.fields.map Field.name = entries.map Prod.fst ∧
      (∀ f ∈ b.fields, f.dataType = .utf8) := by
  obtain ⟨kv0, rest, rfl⟩ : ∃ kv0 rest, entries = kv0 :: rest := by
    cases entries with
    | nil => exact absurd rfl h
    | cons kv0 rest => exact ⟨kv0, rest, rfl⟩
  refine ⟨⟨(kv0 :: rest).map fun kv => ⟨kv.1, .utf8, true⟩,
           (kv0 :: rest).map fun kv => .utf8Col [some kv.2.render]⟩,
    ?_, rfl, rfl, by simp [RecordBatch.numRows, ArrowColumn.length], by simp, ?_⟩
  · have hchecks :
        batchChecks ((kv0 :: rest).map fun kv => ⟨kv.1, .utf8, true⟩)
          ((kv0 :: rest).map fun kv => .utf8Col [some kv.2.render]) 1 = true :=
      batchChecks_utf8_singletons (kv0 :: rest)
    have hok := tryNew_eq_ok ((kv0 :: rest).map fun kv => ⟨kv.1, .utf8, true⟩)
      ((kv0 :: rest).map fun kv => .utf8Col [some kv.2.render])
      (.utf8Col [some kv0.2.render]) (by simp) (by simp) hchecks
    simp only [to_recordbatch, Json.asObject]
    rw [hok]
  · intro f hf
    simp only [List.mem_map] at hf
    obtain ⟨kv, _, rfl⟩ := hf
    rfl

/-- Witness for the amended C7 at a concrete one-key object. -/
theorem to_recordbatch_object_shape_witness :
    ([(("a", Json.num 1))] : List (String × Json)) ≠ [] ∧
    (∃ b, to_recordbatch (Json.obj [("a", Json.num 1)]) = some b ∧
      b.fields = [("a", Json.num 1)].map (fun kv => ⟨kv.1, .utf8, true⟩) ∧
      b.columns = [("a", Json.num 1)].map (fun kv => .utf8Col [some kv.2.render]) ∧
      b.numRows = 1 ∧
      b.fields.map Field.name = [("a", Json.num 1)].map Prod.fst ∧
      (∀ f ∈ b.fields, f.dataType = .utf8)) :=
  ⟨by simp, to_recordbatch_object_shape [("a", Json.num 1)] (by simp)⟩

/-! ## Claim C9 -/

/-- C9: calling `Cache::init` twice in sequence with the same bucket
name — the first call creating the bucket with history depth 10, the
second fetching the existing one — returns a usable store (the bucket
handle is set) both times without error, and the second call does not
create a second bucket (the server state is unchanged). -/
theorem cache_init_twice_idempotent (c : Cache) (st : JetStreamServer)
    (bucket : String) (hconn : st.connectOk = true)
    (habsent : st.buckets.lookup bucket = none) :
    ∃ st1 c1, c.init st bucket = (st1, .ok c1) ∧
      c1.store = some bucket ∧
      st1.buckets = st.buckets ++ [(bucket, 10)] ∧
      c1.init st1 bucket = (st1, .ok c1) := by
  obtain ⟨bl, co⟩ := st
  simp only at hconn habsent
  subst hconn
  have hget : getKeyValue ⟨bl, true⟩ bucket = none := by
    simp [getKeyValue, habsent]
  refine ⟨⟨bl ++ [(bucket, 10)], true⟩, { c with store := some bucket }, ?_, rfl, rfl, ?_⟩
  · simp [Cache.init, hget, createKeyValue]
  · have hget2 : getKeyValue ⟨bl ++ [(bucket, 10)], true⟩ bucket = some bucket := by
      simp [getKeyValue, List.lookup_append, habsent, List.lookup_cons]
    simp [Cache.init, hget2]

/-- Witness for C9: a fresh server with no buckets and a concrete
bucket name. -/
theorem cache_init_twice_idempotent_witness :
    ∃ st1 c1,
      Cache.init ⟨"creds", none⟩ ⟨[], true⟩ "dedup" = (st1, .ok c1) ∧
      c1.store = some "dedup" ∧
      st1.buckets = ([] : List (String × Nat)) ++ [("dedup", 10)] ∧
      c1.init st1 "dedup" = (st1, .ok c1) :=
  cache_init_twice_idempotent ⟨"creds", none⟩ ⟨[], true⟩ "dedup" rfl rfl

/-! ## Claim C3 -/

theorem sendAll_sent (xs : List α) :
    ∀ ch : BroadcastChannel α, (ch.sendAll xs).sent = ch.sent ++ xs := by
  induction xs with
  | nil => intro ch; simp [BroadcastChannel.sendAll]
  | cons x xs ih =>
    intro ch
    have := ih (ch.send x)
    simp only [BroadcastChannel.sendAll, List.foldl_cons] at this ⊢
    rw [this]
    simp [BroadcastChannel.send]

theorem sendAll_capacity (xs : List α) :
    ∀ ch : BroadcastChannel α, (ch.sendAll xs).capacity = ch.capacity := by
  induction xs with
  | nil => intro ch; rfl
  | cons x xs ih =>
    intro ch
    have := ih (ch.send x)
    simpa [BroadcastChannel.sendAll, BroadcastChannel.send] using this

/-- C3: `Flow::run` creates a single broadcast bus of bounded capacity
1000; publishing never blocks (send always succeeds, appending the
message), and a fresh subscriber behind which `C + k` messages
(`k ≥ 1`) have already been published observes a lagged condition
reporting the `k` dropped messages on its first receive — not a hang
or a crash — is repositioned at the oldest retained message, and every
subsequent receive at cursor `j ≥ k` yields message `j` normally. -/
theorem broadcast_bus_lag_and_resume (α : Type) (C k : Nat) (hk : 1 ≤ k)
    (msgs : List α) (hlen : msgs.length = C + k) (x : α)
    (j : Nat) (hj : k ≤ j) (m : α) (hm : msgs.get? j = some m) :
    flowRunBusCapacity = 1000 ∧
    (((broadcastChannel α C).1.sendAll msgs).send x).sent = msgs ++ [x] ∧
    ((broadcastChannel α C).1.sendAll msgs).recvFrom (broadcastChannel α C).2 =
      (.lagged k, ⟨k⟩) ∧
    ((broadcastChannel α C).1.sendAll msgs).recvFrom ⟨j⟩ = (.message m, ⟨j + 1⟩) := by
  have hsent : ((broadcastChannel α C).1.sendAll msgs).sent = msgs := by
    simpa [broadcastChannel] using sendAll_sent msgs (broadcastChannel α C).1
  have hcap : ((broadcastChannel α C).1.sendAll msgs).capacity = C := by
    simpa [broadcastChannel] using sendAll_capacity msgs (broadcastChannel α C).1
  have holdest : ((broadcastChannel α C).1.sendAll msgs).oldest = k := by
    simp [BroadcastChannel.oldest, hsent, hcap, hlen]
  refine ⟨rfl, ?_, ?_, ?_⟩
  · simp [BroadcastChannel.send, hsent]
  · have h0 : (0 : Nat) < k := hk
    rw [show (broadcastChannel α C).2 = ⟨0⟩ from rfl, BroadcastChannel.recvFrom, holdest]
    simp [h0]
  · have hnl : ¬ j < ((broadcastChannel α C).1.sendAll msgs).oldest := by
      rw [holdest]; omega
    rw [BroadcastChannel.recvFrom, if_neg ?hc]
    case hc => simpa using hnl
    rw [hsent]
    rw [List.get?_eq_getElem?] at hm
    simp [hm]

/-- Witness for C3: capacity 2, three messages published before the
first receive, lag of 1 observed, then message at index 1 received
normally. -/
theorem broadcast_bus_lag_and_resume_witness :
    flowRunBusCapacity = 1000 ∧
    (((broadcastChannel Nat 2).1.sendAll [10, 20, 30]).send 99).sent =
      [10, 20, 30] ++ [99] ∧
    ((broadcastChannel Nat 2).1.sendAll [10, 20, 30]).recvFrom
      (broadcastChannel Nat 2).2 = (.lagged 1, ⟨1⟩) ∧
    ((broadcastChannel Nat 2).1.sendAll [10, 20, 30]).recvFrom ⟨1⟩ =
      (.message 20, ⟨1 + 1⟩) :=
  broadcast_bus_lag_and_resume Nat 2 1 (by decide) [10, 20, 30] (by decide)
    99 1 (by decide) 20 (by decide)

/-! ## Claim C8 -/

/-- The decoder inverts the encoder on any continuation of the
stream. -/
def Decodes (enc : α → List Atom) (dec : List Atom → Option (α × List Atom)) : Prop :=
  ∀ x rest, dec (enc x ++ rest) = some (x, rest)

theorem decodes_string : Decodes encodeString decodeString := fun _ _ => rfl

theorem decodes_int : Decodes encodeInt decodeInt := fun _ _ => rfl

theorem decodes_bool : Decodes encodeBool decodeBool := by
  intro b rest; cases b <;> rfl

theorem decodes_timeUnit : Decodes encodeTimeUnit decodeTimeUnit := by
  intro u rest; cases u <;> rfl

theorem decodes_option {enc : α → List Atom} {dec} (h : Decodes enc dec) :
    Decodes (encodeOption enc) (decodeOption dec) := by
  intro x rest
  cases x with
  | none => rfl
  | some v => simp [encodeOption, decodeOption, h v rest]

theorem decodeCount_encode {enc : α → List Atom} {dec} (h : Decodes enc dec) :
    ∀ (xs : List α) (rest : List Atom),
      decodeCount dec xs.length ((xs.map enc).flatten ++ rest) = some (xs, rest)
  | [], rest => rfl
  | x :: xs, rest => by
    simp only [List.map_cons, List.flatten_cons, List.length_cons, List.append_assoc]
    rw [decodeCount, h x]
    simp [decodeCount_encode h xs rest]

theorem decodes_list {enc : α → List Atom} {dec} (h : Decodes enc dec) :
    Decodes (encodeList enc) (decodeList dec) := by
  intro xs rest
  simp only [encodeList, List.cons_append, decodeList]
  exact decodeCount_encode h xs rest

theorem decodes_dataType : Decodes encodeDataType decodeDataType := by
  intro dt rest
  cases dt with
  | timestamp u tz =>
    simp only [encodeDataType, List.cons_append, List.append_assoc, decodeDataType]
    rw [decodes_timeUnit u]
    simp [decodes_option decodes_string tz rest]
  | utf8 => rfl
  | int64 => rfl

theorem decodes_field : Decodes encodeField decodeField := by
  intro f rest
  obtain ⟨nm, dt, nb⟩ := f
  simp [encodeField, decodeField, List.append_assoc, decodes_string nm,
    decodes_dataType dt, decodes_bool nb]

theorem decodes_column : Decodes encodeColumn decodeColumn := by
  intro c rest
  cases c with
  | timestampCol u tz vals =>
    simp [encodeColumn, decodeColumn, List.append_assoc, decodes_timeUnit u,
      decodes_option decodes_string tz,
      decodes_list (decodes_option decodes_int) vals]
  | utf8Col vals =>
    simp [encodeColumn, decodeColumn,
      decodes_list (decodes_option decodes_string) vals]
  | int64Col vals =>
    simp [encodeColumn, decodeColumn,
      decodes_list (decodes_option decodes_int) vals]

/-- C8: serializing a table to the self-describing stream and reading
it back yields a table with identical schema and identical cell values
in the same order, and re-serializing the read-back table reproduces
the original stream exactly. -/
theorem bytes_table_roundtrip (m : Message) :
    table_of (bytes_of m) = some m.data ∧
    bytes_of ⟨(table_of (bytes_of m)).getD m.data, m.subject⟩ = bytes_of m := by
  have h1 : table_of (bytes_of m) = some m.data := by
    simp [bytes_of, table_of, List.append_assoc,
      decodes_list decodes_field m.data.fields,
      decodes_list decodes_column m.data.columns]
  exact ⟨h1, by simp [h1]⟩

/-! ## Claim C5 -/

theorem mapM_eq_map {α β : Type} (f : α → Option β) (g : α → β) :
    ∀ l : List α, (∀ x ∈ l, f x = some (g x)) → l.mapM f = some (l.map g)
  | [], _ => rfl
  | x :: l, h => by
    rw [List.mapM_cons, h x (List.mem_cons_self x l),
      mapM_eq_map f g l fun y hy => h y (List.mem_cons_of_mem x hy)]
    rfl

theorem mapM_fixed {α : Type} (f : α → Option α) (l : List α)
    (h : ∀ x ∈ l, f x = some x) : l.mapM f = some l := by
  have := mapM_eq_map f id l h
  simpa using this

theorem mapM_mem {α β : Type} (f : α → Option β) :
    ∀ (l : List α) (l2 : List β), l.mapM f = some l2 →
      ∀ y ∈ l2, ∃ x ∈ l, f x = some y
  | [], l2, h => by
    simp only [List.mapM_nil] at h
    cases h
    intro y hy
    simp at hy
  | x :: l, l2, h => by
    rw [List.mapM_cons] at h
    cases hx : f x with
    | none => rw [hx] at h; simp at h
    | some b =>
      rw [hx] at h
      cases hrec : l.mapM f with
      | none => rw [hrec] at h; simp at h
      | some bs =>
        rw [hrec] at h
        have hl2 : b :: bs = l2 := by simpa using h
        subst hl2
        intro y hy
        rcases List.mem_cons.mp hy with rfl | hmem
        · exact ⟨x, List.mem_cons_self x l, hx⟩
        · obtain ⟨x2, hx2, hfx2⟩ := mapM_mem f l bs hrec y hmem
          exact ⟨x2, List.mem_cons_of_mem x hx2, hfx2⟩

theorem tryNew_ok_inv {F : List Field} {C : List ArrowColumn} {b : RecordBatch}
    (h : RecordBatch.tryNew F C = .ok b) : b = ⟨F, C⟩ := by
  rw [RecordBatch.tryNew] at h
  split at h
  · split at h
    · exact Except.noConfusion h
    · split at h
      · exact ((Except.ok.inj h).symm)
      · exact Except.noConfusion h
  · exact Except.noConfusion h

theorem adjustFieldColumn_passthrough (f : Field) (c : ArrowColumn)
    (h : ∀ tz, f.dataType ≠ .timestamp .millisecond tz) :
    adjustFieldColumn f c = some (f, c) := by
  obtain ⟨nm, dt, nb⟩ := f
  cases dt with
  | timestamp u tz =>
    cases u with
    | millisecond => exact absurd rfl (h tz)
    | second => rfl
    | microsecond => rfl
    | nanosecond => rfl
  | utf8 => rfl
  | int64 => rfl

theorem adjustFieldColumn_fixed (f : Field) (c : ArrowColumn)
    (p : Field × ArrowColumn) (h : adjustFieldColumn f c = some p) :
    adjustFieldColumn p.1 p.2 = some p := by
  obtain ⟨nm, dt, nb⟩ := f
  cases dt with
  | timestamp u tz =>
    cases u with
    | millisecond =>
      cases c with
      | timestampCol u2 tz2 vals =>
        cases u2 with
        | millisecond =>
          simp only [adjustFieldColumn] at h
          cases hcv : convertMsVals vals with
          | none => rw [hcv] at h; exact Option.noConfusion h
          | some nv =>
            rw [hcv] at h
            obtain rfl :
                (⟨⟨nm, .timestamp .microsecond tz, nb⟩,
                  .timestampCol .microsecond none nv⟩ : Field × ArrowColumn) = p :=
              Option.some.inj h
            exact adjustFieldColumn_passthrough _ _ (by intro tz3 hcon; cases hcon)
        | second => simp [adjustFieldColumn] at h
        | microsecond => simp [adjustFieldColumn] at h
        | nanosecond => simp [adjustFieldColumn] at h
      | utf8Col vals => simp [adjustFieldColumn] at h
      | int64Col vals => simp [adjustFieldColumn] at h
    | second =>
      obtain rfl := Option.some.inj h
      exact adjustFieldColumn_passthrough _ _ (by intro tz3 hcon; cases hcon)
    | microsecond =>
      obtain rfl := Option.some.inj h
      exact adjustFieldColumn_passthrough _ _ (by intro tz3 hcon; cases hcon)
    | nanosecond =>
      obtain rfl := Option.some.inj h
      exact adjustFieldColumn_passthrough _ _ (by intro tz3 hcon; cases hcon)
  | utf8 =>
    obtain rfl := Option.some.inj h
    exact adjustFieldColumn_passthrough _ _ (by intro tz3 hcon; cases hcon)
  | int64 =>
    obtain rfl := Option.some.inj h
    exact adjustFieldColumn_passthrough _ _ (by intro tz3 hcon; cases hcon)

/-- C5: the precision normalization is idempotent — running
`adjust_data_precision` twice ends in exactly the same outcome (same
data, same schema, same error or panic if any) as running it once,
because after one successful application no millisecond-typed column
remains. -/
theorem adjust_data_precision_idempotent (b : RecordBatch) :
    adjustDataPrecisionTwice b = adjust_data_precision b := by
  unfold adjustDataPrecisionTwice
  cases hone : adjust_data_precision b with
  | none => rfl
  | some r =>
    cases r with
    | error e => rfl
    | ok b2 =>
      rw [adjust_data_precision] at hone
      split at hone
      case isTrue hguard =>
        cases hmap : (b.fields.zip b.columns).mapM
            (fun p => adjustFieldColumn p.1 p.2) with
        | none => rw [hmap] at hone; exact Option.noConfusion hone
        | some pairs =>
          rw [hmap] at hone
          have htry : RecordBatch.tryNew (pairs.map Prod.fst) (pairs.map Prod.snd) =
              .ok b2 := Option.some.inj hone
          obtain rfl : b2 = ⟨pairs.map Prod.fst, pairs.map Prod.snd⟩ :=
            tryNew_ok_inv htry
          simp only [adjust_data_precision]
          have hlen : (pairs.map Prod.fst).length ≤ (pairs.map Prod.snd).length := by
            simp
          rw [if_pos hlen]
          have hzip : (pairs.map Prod.fst).zip (pairs.map Prod.snd) = pairs := by
            rw [List.zip_map']
            simp
          rw [hzip]
          have hfix : ∀ p ∈ pairs, adjustFieldColumn p.1 p.2 = some p := by
            intro p hp
            obtain ⟨q, _, hstep⟩ := mapM_mem _ _ _ hmap p hp
            exact adjustFieldColumn_fixed q.1 q.2 p hstep
          rw [mapM_fixed _ pairs hfix]
          show some (RecordBatch.tryNew (pairs.map Prod.fst) (pairs.map Prod.snd)) =
            some (Except.ok ⟨pairs.map Prod.fst, pairs.map Prod.snd⟩)
          rw [htry]
      case isFalse hguard => exact Option.noConfusion hone

/-! ## Claim C4 -/

theorem convertMsVals_eq (vals : List (Option Int))
    (h : ∀ v : Int, some v ∈ vals → i64Min ≤ v * 1000 ∧ v * 1000 ≤ i64Max) :
    convertMsVals vals = some (vals.map (Option.map fun v => v * 1000)) := by
  induction vals with
  | nil => rfl
  | cons ov vals ih =>
    have htail := ih fun v hv => h v (List.mem_cons_of_mem ov hv)
    cases ov with
    | none =>
      simp only [convertMsVals, List.mapM_cons] at htail ⊢
      rw [htail]
      rfl
    | some v =>
      have hr := h v (List.mem_cons_self _ _)
      have hcell : convertMsCell (some v) = some (some (v * 1000)) := by
        simp only [convertMsCell, i64Mul1000, if_pos hr]
        rfl
      simp only [convertMsVals, List.mapM_cons] at htail ⊢
      rw [hcell, htail]
      rfl

theorem specColumnToMicro_length (f : Field) (c : ArrowColumn) :
    (specColumnToMicro f c).length = c.length := by
  obtain ⟨nm, dt, nb⟩ := f
  cases dt with
  | timestamp u tz =>
    cases u <;> cases c <;> simp [specColumnToMicro, ArrowColumn.length]
  | utf8 => rfl
  | int64 => rfl

theorem filter_isNone_map_optionMap (g : Int → Int) (vals : List (Option Int)) :
    ((vals.map (Option.map g)).filter Option.isNone).length =
      (vals.filter Option.isNone).length := by
  induction vals with
  | nil => rfl
  | cons ov vals ih =>
    cases ov with
    | none => simp [List.filter_cons, ih]
    | some v => simp [List.filter_cons, ih]

theorem specColumnToMicro_nullCount (f : Field) (c : ArrowColumn) :
    (specColumnToMicro f c).nullCount = c.nullCount := by
  obtain ⟨nm, dt, nb⟩ := f
  cases dt with
  | timestamp u tz =>
    cases u <;> cases c <;>
      simp [specColumnToMicro, ArrowColumn.nullCount, filter_isNone_map_optionMap]
  | utf8 => rfl
  | int64 => rfl

theorem specFieldToMicro_nullable (f : Field) :
    (specFieldToMicro f).nullable = f.nullable := by
  obtain ⟨nm, dt, nb⟩ := f
  cases dt with
  | timestamp u tz => cases u <;> rfl
  | utf8 => rfl
  | int64 => rfl

theorem specFieldToMicro_name (f : Field) :
    (specFieldToMicro f).name = f.name := by
  obtain ⟨nm, dt, nb⟩ := f
  cases dt with
  | timestamp u tz => cases u <;> rfl
  | utf8 => rfl
  | int64 => rfl

theorem spec_dataType_eq (f : Field) (c : ArrowColumn)
    (hdt : c.dataType = f.dataType)
    (htzf : ∀ tz, f.dataType = .timestamp .millisecond tz → tz = none) :
    (specColumnToMicro f c).dataType = (specFieldToMicro f).dataType := by
  obtain ⟨nm, dt, nb⟩ := f
  cases dt with
  | timestamp u tz =>
    cases u with
    | millisecond =>
      have htz0 : tz = none := htzf tz rfl
      subst htz0
      cases c with
      | timestampCol u2 tz2 vals =>
        simp only [ArrowColumn.dataType, DataType.timestamp.injEq] at hdt
        obtain ⟨rfl, rfl⟩ := hdt
        rfl
      | utf8Col vals => simp [ArrowColumn.dataType] at hdt
      | int64Col vals => simp [ArrowColumn.dataType] at hdt
    | second => simpa [specColumnToMicro, specFieldToMicro] using hdt
    | microsecond => simpa [specColumnToMicro, specFieldToMicro] using hdt
    | nanosecond => simpa [specColumnToMicro, specFieldToMicro] using hdt
  | utf8 => simpa [specColumnToMicro, specFieldToMicro] using hdt
  | int64 => simpa [specColumnToMicro, specFieldToMicro] using hdt

theorem batchChecks_mem {F : List Field} {C : List ArrowColumn} {r : Nat}
    (h : batchChecks F C r = true) :
    ∀ p ∈ F.zip C,
      p.2.dataType = p.1.dataType ∧
        (p.1.nullable = true ∨ p.2.nullCount = 0) ∧ p.2.length = r := by
  intro p hp
  have hswap : (p.2, p.1) ∈ C.zip F := by
    rw [← List.zip_swap]
    exact List.mem_map_of_mem Prod.swap hp
  have hall := List.all_eq_true.mp h _ hswap
  simp only [Bool.and_eq_true, decide_eq_true_eq, Bool.or_eq_true] at hall
  exact ⟨hall.1.1, hall.1.2, hall.2⟩

theorem adjustFieldColumn_spec (f : Field) (c : ArrowColumn)
    (hdt : c.dataType = f.dataType)
    (htzf : ∀ tz, f.dataType = .timestamp .millisecond tz → tz = none)
    (hrange : ∀ tz vals, c = .timestampCol .millisecond tz vals →
      ∀ v : Int, some v ∈ vals → i64Min ≤ v * 1000 ∧ v * 1000 ≤ i64Max) :
    adjustFieldColumn f c = some (specFieldToMicro f, specColumnToMicro f c) := by
  obtain ⟨nm, dt, nb⟩ := f
  cases dt with
  | timestamp u tz =>
    cases u with
    | millisecond =>
      have htz0 : tz = none := htzf tz rfl
      subst htz0
      cases c with
      | timestampCol u2 tz2 vals =>
        simp only [ArrowColumn.dataType, DataType.timestamp.injEq] at hdt
        obtain ⟨rfl, rfl⟩ := hdt
        have hcv := convertMsVals_eq vals (hrange none vals rfl)
        simp [adjustFieldColumn, specFieldToMicro, specColumnToMicro, hcv]
      | utf8Col vals => simp [ArrowColumn.dataType] at hdt
      | int64Col vals => simp [ArrowColumn.dataType] at hdt
    | second =>
      rw [adjustFieldColumn_passthrough _ _ (by intro tz3; simp)]
      rfl
    | microsecond =>
      rw [adjustFieldColumn_passthrough _ _ (by intro tz3; simp)]
      rfl
    | nanosecond =>
      rw [adjustFieldColumn_passthrough _ _ (by intro tz3; simp)]
      rfl
  | utf8 =>
    rw [adjustFieldColumn_passthrough _ _ (by intro tz3; simp)]
    rfl
  | int64 =>
    rw [adjustFieldColumn_passthrough _ _ (by intro tz3; simp)]
    rfl

/-- A well-formed batch with a single millisecond-timestamp column
whose value overflows a signed 64-bit integer when multiplied by
1000. -/
def overflowMsBatch : RecordBatch :=
  ⟨[⟨"ts", .timestamp .millisecond none, true⟩],
    [.timestampCol .millisecond none [some (2 ^ 62)]]⟩

/-- C4 counterexample: on the well-formed batch holding the
millisecond value `2 ^ 62`, the multiplication `ms * 1000` overflows
`i64`, so `adjust_data_precision` panics (`none`): there is no output
batch whose entries are the original values multiplied by 1000, and
the claim, quantified over every Event, fails at this one. -/
theorem adjust_data_precision_overflow_cex :
    overflowMsBatch.wf ∧ adjust_data_precision overflowMsBatch = none := by
  constructor
  · decide
  · rfl

/-- C4 amended: for every Event whose batch is well formed, whose
millisecond-timestamp fields carry no timezone, and whose millisecond
values stay within `i64` after multiplication by 1000, the transform
succeeds and replaces each millisecond column by a microsecond column
with every non-null entry multiplied by 1000 (nulls staying null),
leaves all other fields and columns unchanged (this is what
`specFieldToMicro` / `specColumnToMicro`, written from the spec's
words, do), preserves field names, column count, row order and row
count, and changes only the timestamp unit in the schema.  Without the
timezone restriction the rebuilt microsecond array (built with no
timezone) fails `RecordBatch::try_new` against the timezone-carrying
field, and without the range restriction the multiplication panics. -/
theorem adjust_data_precision_ms_to_us (b : RecordBatch) (hwf : b.wf)
    (htz : ∀ f ∈ b.fields, ∀ tz, f.dataType = .timestamp .millisecond tz → tz = none)
    (hrange : ∀ c ∈ b.columns, ∀ tz vals, c = .timestampCol .millisecond tz vals →
      ∀ v : Int, some v ∈ vals → i64Min ≤ v * 1000 ∧ v * 1000 ≤ i64Max) :
    adjust_data_precision b =
      some (.ok ⟨b.fields.map specFieldToMicro,
        (b.fields.zip b.columns).map fun p => specColumnToMicro p.1 p.2⟩) ∧
    (b.fields.map specFieldToMicro).map Field.name = b.fields.map Field.name ∧
    ((b.fields.zip b.columns).map fun p => specColumnToMicro p.1 p.2).length =
      b.columns.length ∧
    RecordBatch.numRows ⟨b.fields.map specFieldToMicro,
      (b.fields.zip b.columns).map fun p => specColumnToMicro p.1 p.2⟩ =
      b.numRows := by
  obtain ⟨F, C⟩ := b
  obtain ⟨hlen, hne, hchecks⟩ := hwf
  simp only at htz hrange hlen hne hchecks ⊢
  obtain ⟨c0, C0, rfl⟩ : ∃ c0 C0, C = c0 :: C0 := by
    cases C with
    | nil => exact absurd rfl hne
    | cons a l => exact ⟨a, l, rfl⟩
  obtain ⟨f0, F0, rfl⟩ : ∃ f0 F0, F = f0 :: F0 := by
    cases F with
    | nil => simp at hlen
    | cons a l => exact ⟨a, l, rfl⟩
  have hl0 : F0.length = C0.length := by simpa using hlen
  have hnum : RecordBatch.numRows ⟨f0 :: F0, c0 :: C0⟩ = c0.length := rfl
  rw [hnum] at hchecks
  have hpt := batchChecks_mem hchecks
  have hstep : ∀ p ∈ (f0 :: F0).zip (c0 :: C0),
      adjustFieldColumn p.1 p.2 =
        some (specFieldToMicro p.1, specColumnToMicro p.1 p.2) := by
    intro p hp
    have hm := List.of_mem_zip (a := p.1) (b := p.2) hp
    exact adjustFieldColumn_spec p.1 p.2 (hpt p hp).1 (htz p.1 hm.1) (hrange p.2 hm.2)
  have hmapZ := mapM_eq_map
    (fun p : Field × ArrowColumn => adjustFieldColumn p.1 p.2)
    (fun p : Field × ArrowColumn =>
      (specFieldToMicro p.1, specColumnToMicro p.1 p.2)) _ hstep
  have hF : ((((f0 :: F0).zip (c0 :: C0)).map
      fun p => (specFieldToMicro p.1, specColumnToMicro p.1 p.2)).map Prod.fst) =
      (f0 :: F0).map specFieldToMicro := by
    rw [List.map_map]
    have hcomp : (Prod.fst ∘ fun p : Field × ArrowColumn =>
        (specFieldToMicro p.1, specColumnToMicro p.1 p.2)) =
        (specFieldToMicro ∘ Prod.fst) := rfl
    rw [hcomp, ← List.map_map,
      List.map_fst_zip (f0 :: F0) (c0 :: C0) (le_of_eq hlen)]
  have hS : ((((f0 :: F0).zip (c0 :: C0)).map
      fun p => (specFieldToMicro p.1, specColumnToMicro p.1 p.2)).map Prod.snd) =
      ((f0 :: F0).zip (c0 :: C0)).map fun p => specColumnToMicro p.1 p.2 := by
    rw [List.map_map]
    rfl
  have hchecks2 : batchChecks ((f0 :: F0).map specFieldToMicro)
      (((f0 :: F0).zip (c0 :: C0)).map fun p => specColumnToMicro p.1 p.2)
      c0.length = true := by
    rw [batchChecks]
    have hFz : (f0 :: F0).map specFieldToMicro =
        ((f0 :: F0).zip (c0 :: C0)).map fun p => specFieldToMicro p.1 := by
      conv_lhs => rw [← List.map_fst_zip (f0 :: F0) (c0 :: C0) (le_of_eq hlen)]
      rw [List.map_map]
      rfl
    rw [hFz, List.zip_map']
    refine List.all_eq_true.mpr ?_
    intro q hq
    obtain ⟨p, hp, rfl⟩ := List.mem_map.mp hq
    obtain ⟨hdt, hnul, hlenchk⟩ := hpt p hp
    have hm := List.of_mem_zip (a := p.1) (b := p.2) hp
    have htzp := htz p.1 hm.1
    have h1 := spec_dataType_eq p.1 p.2 hdt htzp
    rcases hnul with hnul | hnul <;>
      simp [h1, specFieldToMicro_nullable, specColumnToMicro_nullCount,
        specColumnToMicro_length, hlenchk, hnul]
  have htryok := tryNew_eq_ok ((f0 :: F0).map specFieldToMicro)
    (((f0 :: F0).zip (c0 :: C0)).map fun p => specColumnToMicro p.1 p.2)
    (specColumnToMicro f0 c0) (by simp [List.length_zip, hl0]) (by rfl)
    (by rw [specColumnToMicro_length]; exact hchecks2)
  refine ⟨?_, ?_, ?_, ?_⟩
  · simp only [adjust_data_precision]
    rw [if_pos (le_of_eq hlen), hmapZ]
    show some (RecordBatch.tryNew _ _) = _
    rw [hF, hS, htryok]
  · rw [List.map_map]
    exact List.map_congr_left fun f _ => specFieldToMicro_name f
  · simp [List.length_zip, hl0]
  · simp [RecordBatch.numRows, specColumnToMicro_length]

/-- A well-formed two-column batch: a nullable millisecond-timestamp
column (no timezone, values in range) and a utf8 column. -/
def msBatchSample : RecordBatch :=
  ⟨[⟨"ts", .timestamp .millisecond none, true⟩, ⟨"id", .utf8, true⟩],
    [.timestampCol .millisecond none [some 5, none], .utf8Col [some "a", none]]⟩

/-- Witness for the amended C4 at a concrete batch. -/
theorem adjust_data_precision_ms_to_us_witness :
    adjust_data_precision msBatchSample =
      some (.ok ⟨msBatchSample.fields.map specFieldToMicro,
        (msBatchSample.fields.zip msBatchSample.columns).map
          fun p => specColumnToMicro p.1 p.2⟩) ∧
    (msBatchSample.fields.map specFieldToMicro).map Field.name =
      msBatchSample.fields.map Field.name ∧
    ((msBatchSample.fields.zip msBatchSample.columns).map
      fun p => specColumnToMicro p.1 p.2).length = msBatchSample.columns.length ∧
    RecordBatch.numRows ⟨msBatchSample.fields.map specFieldToMicro,
      (msBatchSample.fields.zip msBatchSample.columns).map
        fun p => specColumnToMicro p.1 p.2⟩ = msBatchSample.numRows :=
  adjust_data_precision_ms_to_us msBatchSample (by decide)
    (by
      intro f hf tz hdt
      simp only [msBatchSample, List.mem_cons, List.not_mem_nil, or_false] at hf
      rcases hf with rfl | rfl
      · injection hdt with h1 h2
        exact h2.symm
      · exact absurd hdt (by simp [Field.dataType]))
    (by
      intro c hc tz vals hcv v hv
      simp only [msBatchSample, List.mem_cons, List.not_mem_nil, or_false] at hc
      rcases hc with rfl | rfl
      · injection hcv with h1 h2 h3
        subst h3
        simp only [List.mem_cons, List.not_mem_nil, or_false,
          Option.some.injEq, reduceCtorEq] at hv
        subst hv
        decide
      · exact absurd hcv (by simp))

end Flowgen
